import Mathlib

/-!
Verification of the cache + concurrent-fetch core of the pip package manager
(`src/main.py`).  The Python code is shallowly embedded: the JSON cache file
becomes an association list, wall-clock instants become integers (seconds),
the external `pip index versions` subprocess becomes an oracle
`String → Except Unit String` (`Except.error` models a non-zero exit status,
`Except.ok stdout` a captured stdout), and the thread-pool fan-out becomes an
explicit completion schedule writing results into pre-sized slots.
-/

/-- Registry metadata as returned by `PackageManager.get_pypi_info`
(`{"latest_version": ..., "all_versions": ...}`). -/
structure RegInfo where
  latest_version : String
  all_versions : List String
deriving DecidableEq

/-- One value of the cache mapping: registry metadata plus the fetch
instant stored by `PackageCache.set` (the `timestamp` field of the JSON
entry, modelled as integer seconds instead of an ISO-8601 string). -/
structure CacheEntry where
  latest_version : String
  all_versions : List String
  timestamp : Int
deriving DecidableEq

/-- The in-memory dict `self.cache` of `PackageCache`, as an association
list with unique keys (package names). -/
def Cache := List (String × CacheEntry)

instance : DecidableEq Cache := by
  unfold Cache
  infer_instance

/-- State of a `PackageCache` instance together with the persisted file:
`cache` is the in-memory dict, `disk` the content of `package_cache.json`
(`none` when the file does not exist). -/
structure CacheState where
  cache : List (String × CacheEntry)
  disk : Option (List (String × CacheEntry))
deriving DecidableEq

/-- Python dict read `self.cache[package_name]` guarded by
`package_name in self.cache`: association-list lookup. -/
def cacheLookup : List (String × CacheEntry) → String → Option CacheEntry
  | [], _ => none
  | (k, v) :: rest, name => if k = name then some v else cacheLookup rest name

/-- Python dict write `self.cache[package_name] = info`: replace the
binding if the key is present, append it otherwise. -/
def cacheInsert : List (String × CacheEntry) → String → CacheEntry → List (String × CacheEntry)
  | [], name, e => [(name, e)]
  | (k, v) :: rest, name, e =>
    if k = name then (k, e) :: rest else (k, v) :: cacheInsert rest name e

/-- `CACHE_EXPIRY = timedelta(hours=1)`, in seconds. -/
def CACHE_EXPIRY : Int := 3600

/-- `PackageCache.load`: read the whole mapping from the file, or start
from an empty dict when the file does not exist. -/
def PackageCache.load (disk : Option (List (String × CacheEntry))) : List (String × CacheEntry) :=
  match disk with
  | some m => m
  | none => []

/-- `PackageCache.get`: return the entry for `package_name` when it is
present and `datetime.now() - cached_time < CACHE_EXPIRY`, else `None`. -/
def PackageCache.get (cache : List (String × CacheEntry)) (now : Int) (package_name : String) :
    Option CacheEntry :=
  match cacheLookup cache package_name with
  | some e => if now - e.timestamp < CACHE_EXPIRY then some e else none
  | none => none

/-- `PackageCache.set`: stamp `info` with the current time, store it under
`package_name`, and synchronously persist the whole mapping (`self.save()`,
a full rewrite of the file). -/
def PackageCache.set (st : CacheState) (now : Int) (package_name : String) (info : RegInfo) :
    CacheState :=
  let e : CacheEntry :=
    { latest_version := info.latest_version, all_versions := info.all_versions, timestamp := now }
  let c := cacheInsert st.cache package_name e
  { cache := c, disk := some c }

/-- Characters stripped by Python `str.strip()` (whitespace). -/
def pyIsSpace (c : Char) : Bool := c = ' ' || c = '\t' || c = '\n' || c = '\r'

/-- Python `str.strip()` on a character list: drop leading and trailing
whitespace. -/
def pyStripChars (s : List Char) : List Char :=
  ((s.dropWhile pyIsSpace).reverse.dropWhile pyIsSpace).reverse

/-- Fuel-driven worker for `pySplitChars`; `acc` holds the characters of
the current field in reverse.  The fuel is always at least the length of
the remaining input, so the fuel-exhaustion branch is never reached on the
wrapper's call. -/
def pySplitCharsAux (sep : List Char) : Nat → List Char → List Char → List (List Char)
  | 0, s, acc => [acc.reverse ++ s]
  | _ + 1, [], acc => [acc.reverse]
  | fuel + 1, c :: rest, acc =>
    if sep.isPrefixOf (c :: rest) then
      acc.reverse :: pySplitCharsAux sep fuel (List.drop sep.length (c :: rest)) []
    else
      pySplitCharsAux sep fuel rest (c :: acc)

/-- Python `str.split(sep)` with a non-empty separator, on character
lists: leftmost, non-overlapping matches; always returns at least one
(possibly empty) field. -/
def pySplitChars (sep s : List Char) : List (List Char) :=
  pySplitCharsAux sep s.length s []

/-- Python `str.split(sep)` on strings. -/
def pySplit (sep s : String) : List String :=
  (pySplitChars sep.data s.data).map fun l => ⟨l⟩

/-- Python `str.strip()` on strings. -/
def pyStrip (s : String) : String := ⟨pyStripChars s.data⟩

/-- The label searched for in the stdout of `pip index versions`. -/
def AVAILABLE_LABEL : String := "Available versions: "

/-- `PackageManager.get_pypi_info`: run `pip index versions <name>`; on a
non-zero exit status (`subprocess.CalledProcessError`) return `None`;
otherwise take the text after the last occurrence of the label
(`output.decode().split(label)[-1]`, Python `[-1]` is the last element),
strip it, split on `", "`, and return the first entry as the latest
version together with the whole list.  The argument is the outcome of the
single subprocess invocation. -/
def get_pypi_info (cmdResult : Except Unit String) : Option RegInfo :=
  match cmdResult with
  | Except.error _ => none
  | Except.ok output =>
    let versions := pySplit ", " (pyStrip ((pySplit AVAILABLE_LABEL output).getLastD ""))
    match versions with
    | [] => none
    | v :: _ => some { latest_version := v, all_versions := versions }

/-- Result of one `PackageManager.get_package_info` call: the returned
tuple `(name, installed_version, latest_version_or_None)`, the cache state
after the call, and whether the Registry Client (`get_pypi_info`, i.e. the
external subprocess) was invoked. -/
structure FetchResult where
  out : String × String × Option String
  state : CacheState
  registry_called : Bool
deriving DecidableEq

/-- `PackageManager.get_package_info`: consult the cache; on a hit use the
cached entry without touching the registry; on a miss invoke the Registry
Client and, when it returned data, store the result via
`PackageCache.set`.  `cmd` is the subprocess outcome per package name. -/
def get_package_info (st : CacheState) (now : Int) (cmd : String → Except Unit String)
    (name installed_version : String) : FetchResult :=
  match PackageCache.get st.cache now name with
  | some cached =>
    { out := (name, installed_version, some cached.latest_version),
      state := st, registry_called := false }
  | none =>
    match get_pypi_info (cmd name) with
    | some info =>
      { out := (name, installed_version, some info.latest_version),
        state := PackageCache.set st now name info, registry_called := true }
    | none =>
      { out := (name, installed_version, none), state := st, registry_called := true }

/-- Inserting a binding makes it visible under its own key. -/
theorem cacheLookup_insert_self (c : List (String × CacheEntry)) (name : String) (e : CacheEntry) :
    cacheLookup (cacheInsert c name e) name = some e := by
  induction c with
  | nil => simp [cacheInsert, cacheLookup]
  | cons kv rest ih =>
    obtain ⟨k, v⟩ := kv
    by_cases h : k = name
    · simp [cacheInsert, cacheLookup, h]
    · simp [cacheInsert, cacheLookup, h, ih]

/-- Inserting a binding leaves every other key untouched. -/
theorem cacheLookup_insert_ne (c : List (String × CacheEntry)) (name k : String) (e : CacheEntry)
    (h : k ≠ name) : cacheLookup (cacheInsert c name e) k = cacheLookup c k := by
  induction c with
  | nil =>
    simp only [cacheInsert, cacheLookup]
    rw [if_neg (fun hh => h hh.symm)]
  | cons kv rest ih =>
    obtain ⟨k0, v0⟩ := kv
    by_cases h0 : k0 = name
    · have hk : ¬ k0 = k := by
        rw [h0]
        exact fun hh => h hh.symm
      simp only [cacheInsert, if_pos h0, cacheLookup]
      rw [if_neg hk, if_neg hk]
    · simp only [cacheInsert, if_neg h0, cacheLookup]
      by_cases h1 : k0 = k
      · rw [if_pos h1, if_pos h1]
      · rw [if_neg h1, if_neg h1]
        exact ih

/-- An absent key stays absent under `PackageCache.get`. -/
theorem PackageCache.get_of_lookup_none (cache : List (String × CacheEntry)) (now : Int)
    (name : String) (h : cacheLookup cache name = none) :
    PackageCache.get cache now name = none := by
  unfold PackageCache.get
  rw [h]

/-- C2: `get(name)` returns the stored entry iff it is present and
`now - fetchedAt < TTL` (1 hour), otherwise absent; and after `set` at
`T0`, `get` at `T0 + 30min` returns the entry while `get` at `T0 + 90min`
returns absent. -/
theorem C2_get_fresh_iff :
    (∀ (cache : List (String × CacheEntry)) (now : Int) (name : String) (e : CacheEntry),
      PackageCache.get cache now name = some e ↔
        cacheLookup cache name = some e ∧ now - e.timestamp < CACHE_EXPIRY)
    ∧ ∀ (st : CacheState) (T0 : Int) (name : String) (info : RegInfo),
        PackageCache.get (PackageCache.set st T0 name info).cache (T0 + 1800) name =
          some { latest_version := info.latest_version, all_versions := info.all_versions,
                 timestamp := T0 }
        ∧ PackageCache.get (PackageCache.set st T0 name info).cache (T0 + 5400) name = none := by
  constructor
  · intro cache now name e
    unfold PackageCache.get
    cases h : cacheLookup cache name with
    | none => simp
    | some e0 =>
      by_cases hf : now - e0.timestamp < CACHE_EXPIRY
      · simp only [if_pos hf]
        constructor
        · intro he
          cases he
          exact ⟨rfl, hf⟩
        · intro ⟨he, _⟩
          cases he
          rfl
      · simp only [if_neg hf]
        constructor
        · intro he
          cases he
        · intro ⟨he, hfr⟩
          cases he
          exact absurd hfr hf
  · intro st T0 name info
    have hl :
        cacheLookup (PackageCache.set st T0 name info).cache name =
          some { latest_version := info.latest_version, all_versions := info.all_versions,
                 timestamp := T0 } :=
      cacheLookup_insert_self st.cache name _
    constructor
    · unfold PackageCache.get
      rw [hl]
      norm_num [CACHE_EXPIRY]
    · unfold PackageCache.get
      rw [hl]
      norm_num [CACHE_EXPIRY]

/-- C3: after `set(name, info)`, loading the persisted mapping in a fresh
instance yields an entry for `name` with the latest version and version
list that were set, and that entry is still freshness-valid at the set
time; an absent file loads as the empty mapping, on which `get` is absent
for every name. -/
theorem C3_roundtrip :
    (∀ (st : CacheState) (now : Int) (name : String) (info : RegInfo),
      ∃ e, cacheLookup (PackageCache.load (PackageCache.set st now name info).disk) name = some e
        ∧ e.latest_version = info.latest_version
        ∧ e.all_versions = info.all_versions
        ∧ PackageCache.get (PackageCache.load (PackageCache.set st now name info).disk) now name =
            some e)
    ∧ PackageCache.load none = []
    ∧ ∀ (now : Int) (name : String), PackageCache.get (PackageCache.load none) now name = none := by
  refine ⟨?_, rfl, ?_⟩
  · intro st now name info
    refine ⟨{ latest_version := info.latest_version, all_versions := info.all_versions,
              timestamp := now }, ?_, rfl, rfl, ?_⟩
    · exact cacheLookup_insert_self st.cache name _
    · unfold PackageCache.get
      rw [show PackageCache.load (PackageCache.set st now name info).disk =
            cacheInsert st.cache name
              { latest_version := info.latest_version, all_versions := info.all_versions,
                timestamp := now } from rfl]
      rw [cacheLookup_insert_self st.cache name _]
      norm_num [CACHE_EXPIRY]
  · intro now name
    rfl

/-- C6: a non-zero exit status of the external registry command makes
`get_pypi_info` return the no-data result `none` instead of raising; the
function consumes the outcome of a single invocation, so no retry
occurs. -/
theorem C6_nonzero_exit_no_data (cmd : String → Except Unit String) (name : String)
    (h : cmd name = Except.error ()) : get_pypi_info (cmd name) = none := by
  rw [h]
  rfl

/-- Witness for C6 at the concrete package name "ghost". -/
theorem C6_nonzero_exit_no_data_witness :
    get_pypi_info ((fun _ => Except.error ()) "ghost") = none :=
  C6_nonzero_exit_no_data (fun _ => Except.error ()) "ghost" rfl

/-- Join a list of strings with a separator between consecutive elements. -/
def joinSep (sep : String) : List String → String
  | [] => ""
  | [x] => x
  | x :: y :: rest => x ++ sep ++ joinSep sep (y :: rest)

/-- Spec-side parser, following the claim's words literally: extract
everything after the FIRST occurrence of the label `Available versions: `
(the fields after the first separator, re-joined), strip it, split on
`", "`, and report the first entry as latest with the whole list as the
version list. -/
def parseStdoutFirstOcc (output : String) : Option RegInfo :=
  let afterLabel := joinSep AVAILABLE_LABEL (pySplit AVAILABLE_LABEL output).tail
  let versions := pySplit ", " (pyStrip afterLabel)
  match versions with
  | [] => none
  | v :: _ => some { latest_version := v, all_versions := versions }

/-- Spec-side parser following the amended claim: extract everything after
the LAST occurrence of the label, strip it, split on `", "`, and report
the first entry as latest with the whole list as the version list. -/
def parseStdoutLastOcc (output : String) : Option RegInfo :=
  let versions := pySplit ", " (pyStrip ((pySplit AVAILABLE_LABEL output).getLastD ""))
  match versions with
  | [] => none
  | v :: _ => some { latest_version := v, all_versions := versions }

/-- C7 counterexample: on a stdout containing the label twice, the code
parses the text after the LAST occurrence, not the first: it reports
latest version "2.0" where the first-occurrence reading would report
"1.0". -/
theorem C7_counterexample :
    get_pypi_info (Except.ok "Available versions: 1.0, 0.9\nAvailable versions: 2.0, 1.5") ≠
      parseStdoutFirstOcc "Available versions: 1.0, 0.9\nAvailable versions: 2.0, 1.5" := by
  decide

/-- C7 (amended): `get_pypi_info` extracts everything after the last
occurrence of `Available versions: `, strips it, splits on `", "`, and
reports the first entry of the resulting list as the latest version with
the whole list as the version list. -/
theorem C7_parse_after_last_label :
    (∀ output : String, get_pypi_info (Except.ok output) = parseStdoutLastOcc output)
    ∧ ∀ (output : String) (r : RegInfo), get_pypi_info (Except.ok output) = some r →
        ∃ rest, r.all_versions = r.latest_version :: rest := by
  constructor
  · intro output
    rfl
  · intro output r h
    simp only [get_pypi_info] at h
    cases hv : pySplit ", " (pyStrip ((pySplit AVAILABLE_LABEL output).getLastD "")) with
    | nil =>
      rw [hv] at h
      cases h
    | cons v rest =>
      rw [hv] at h
      cases h
      exact ⟨rest, rfl⟩

/-- Witness for C7 (amended) at a concrete stdout. -/
theorem C7_parse_after_last_label_witness :
    ∃ rest, ({ latest_version := "2.0", all_versions := ["2.0", "1.9"] } : RegInfo).all_versions =
      ({ latest_version := "2.0", all_versions := ["2.0", "1.9"] } : RegInfo).latest_version :: rest :=
  C7_parse_after_last_label.2 "Available versions: 2.0, 1.9\n"
    { latest_version := "2.0", all_versions := ["2.0", "1.9"] } (by decide)

/-- C1: on a valid non-expired cache hit for a package, one
`get_package_info` call does not invoke the Registry Client for it and
leaves the cache unchanged; on an expired or absent entry whose live
lookup succeeds, after the call the cache holds a fresh entry for the
package stamped with the call time. -/
theorem C1_enrich_cache_behavior :
    (∀ (st : CacheState) (now : Int) (cmd : String → Except Unit String)
      (name iv : String) (e : CacheEntry),
      PackageCache.get st.cache now name = some e →
        (get_package_info st now cmd name iv).registry_called = false
        ∧ (get_package_info st now cmd name iv).state = st)
    ∧ ∀ (st : CacheState) (now : Int) (cmd : String → Except Unit String)
        (name iv : String) (info : RegInfo),
        PackageCache.get st.cache now name = none →
        get_pypi_info (cmd name) = some info →
        ∃ e, cacheLookup (get_package_info st now cmd name iv).state.cache name = some e
          ∧ e.timestamp = now
          ∧ e.latest_version = info.latest_version
          ∧ e.all_versions = info.all_versions := by
  constructor
  · intro st now cmd name iv e h
    unfold get_package_info
    rw [h]
    exact ⟨rfl, rfl⟩
  · intro st now cmd name iv info h hfetch
    unfold get_package_info
    rw [h, hfetch]
    exact ⟨{ latest_version := info.latest_version, all_versions := info.all_versions,
             timestamp := now },
           cacheLookup_insert_self st.cache name _, rfl, rfl, rfl⟩

/-- Witness for C1: a fresh hit on package "a" (entry set at time 0,
queried at time 10) skips the registry, and a miss on package "b" with a
successful live lookup leaves a fresh entry stamped with the call time. -/
theorem C1_enrich_cache_behavior_witness :
    ((get_package_info ⟨[("a", ⟨"2.0", ["2.0"], 0⟩)], none⟩ 10 (fun _ => Except.error ())
        "a" "1.0").registry_called = false
      ∧ (get_package_info ⟨[("a", ⟨"2.0", ["2.0"], 0⟩)], none⟩ 10 (fun _ => Except.error ())
          "a" "1.0").state = ⟨[("a", ⟨"2.0", ["2.0"], 0⟩)], none⟩)
    ∧ ∃ e, cacheLookup (get_package_info ⟨[], none⟩ 10
          (fun _ => Except.ok "Available versions: 2.0, 1.9\n") "b" "1.0").state.cache "b" = some e
        ∧ e.timestamp = 10 ∧ e.latest_version = "2.0" ∧ e.all_versions = ["2.0", "1.9"] :=
  ⟨C1_enrich_cache_behavior.1 ⟨[("a", ⟨"2.0", ["2.0"], 0⟩)], none⟩ 10 (fun _ => Except.error ())
      "a" "1.0" ⟨"2.0", ["2.0"], 0⟩ (by decide),
   C1_enrich_cache_behavior.2 ⟨[], none⟩ 10 (fun _ => Except.ok "Available versions: 2.0, 1.9\n")
      "b" "1.0" ⟨"2.0", ["2.0", "1.9"]⟩ (by decide) (by decide)⟩

/-- One row of the aggregator's output: the tuple
`(name, installed_version, latest_version_or_None)`. -/
abbrev PkgRow := String × String × Option String

/-- The fan-out of `PackageManager.display_packages`:
`executor.map(self.get_package_info, packages)` submits one lookup task
per input index and collects the results indexed by input position.
`order` is the completion schedule — the order in which the pool runs the
tasks; each task reads the shared cache state left by its predecessors,
and writes its tuple into its own input slot.  Indices outside the input
are skipped. -/
def runSched (now : Int) (cmd : String → Except Unit String) (pkgs : List (String × String)) :
    List Nat → CacheState → List (Option PkgRow) → List (Option PkgRow) × CacheState
  | [], st, slots => (slots, st)
  | i :: rest, st, slots =>
    match pkgs[i]? with
    | none => runSched now cmd pkgs rest st slots
    | some p =>
      runSched now cmd pkgs rest (get_package_info st now cmd p.1 p.2).state
        (slots.set i (some (get_package_info st now cmd p.1 p.2).out))

/-- The list of collected results of the fan-out, one pre-sized slot per
input package, under completion schedule `order`. -/
def enrichSched (now : Int) (cmd : String → Except Unit String) (pkgs : List (String × String))
    (order : List Nat) (st : CacheState) : List (Option PkgRow) :=
  (runSched now cmd pkgs order st (List.replicate pkgs.length none)).1

/-- The tuple returned by `get_package_info` always carries the queried
package's name and installed version in its first two components. -/
theorem get_package_info_components (st : CacheState) (now : Int)
    (cmd : String → Except Unit String) (n v : String) :
    (get_package_info st now cmd n v).out.1 = n ∧ (get_package_info st now cmd n v).out.2.1 = v := by
  unfold get_package_info
  cases PackageCache.get st.cache now n with
  | some e => exact ⟨rfl, rfl⟩
  | none =>
    cases get_pypi_info (cmd n) with
    | some info => exact ⟨rfl, rfl⟩
    | none => exact ⟨rfl, rfl⟩

/-- Running a schedule never changes the number of result slots. -/
theorem runSched_length (now : Int) (cmd : String → Except Unit String)
    (pkgs : List (String × String)) :
    ∀ (order : List Nat) (st : CacheState) (slots : List (Option PkgRow)),
      (runSched now cmd pkgs order st slots).1.length = slots.length := by
  intro order
  induction order with
  | nil => intro st slots; rfl
  | cons i rest ih =>
    intro st slots
    unfold runSched
    cases pkgs[i]? with
    | none => exact ih st slots
    | some p =>
      rw [ih]
      exact List.length_set slots i _

/-- Slot `i` holds a row describing input package `i`. -/
def slotNamed (pkgs : List (String × String)) (slots : List (Option PkgRow)) (i : Nat) : Prop :=
  ∃ row, slots.getD i none = some row
    ∧ row.1 = (pkgs.getD i ("", "")).1
    ∧ row.2.1 = (pkgs.getD i ("", "")).2

/-- A filled slot is in range. -/
theorem slotNamed_lt (pkgs : List (String × String)) (slots : List (Option PkgRow)) (i : Nat)
    (h : slotNamed pkgs slots i) : i < slots.length := by
  obtain ⟨row, hrow, -, -⟩ := h
  by_contra hlen
  rw [List.getD_eq_default slots none (Nat.le_of_not_lt hlen)] at hrow
  cases hrow

/-- Writing the tuple of task `i` into slot `i` makes the slot describe
input `i`. -/
theorem slotNamed_set_self (pkgs : List (String × String)) (slots : List (Option PkgRow))
    (i : Nat) (row : PkgRow) (hlen : i < slots.length)
    (h1 : row.1 = (pkgs.getD i ("", "")).1) (h2 : row.2.1 = (pkgs.getD i ("", "")).2) :
    slotNamed pkgs (slots.set i (some row)) i := by
  refine ⟨row, ?_, h1, h2⟩
  rw [List.getD_eq_getElem?_getD, List.getElem?_set_self hlen]
  rfl

/-- Writing any other slot leaves slot `i` untouched. -/
theorem slotNamed_set_ne (pkgs : List (String × String)) (slots : List (Option PkgRow))
    (i j : Nat) (v : Option PkgRow) (hne : j ≠ i) (h : slotNamed pkgs slots i) :
    slotNamed pkgs (slots.set j v) i := by
  obtain ⟨row, hrow, h1, h2⟩ := h
  refine ⟨row, ?_, h1, h2⟩
  rw [List.getD_eq_getElem?_getD, List.getElem?_set_ne hne, ← List.getD_eq_getElem?_getD]
  exact hrow

/-- Main slot invariant of the fan-out: a slot that is scheduled (with an
in-range index) or already describes its input keeps describing its input
after the whole schedule has run. -/
theorem runSched_slotNamed (now : Int) (cmd : String → Except Unit String)
    (pkgs : List (String × String)) :
    ∀ (order : List Nat) (st : CacheState) (slots : List (Option PkgRow)) (i : Nat),
      ((i ∈ order ∧ i < pkgs.length ∧ i < slots.length) ∨ slotNamed pkgs slots i) →
      slotNamed pkgs (runSched now cmd pkgs order st slots).1 i := by
  intro order
  induction order with
  | nil =>
    intro st slots i h
    rcases h with ⟨hmem, -, -⟩ | hgood
    · cases hmem
    · exact hgood
  | cons j rest ih =>
    intro st slots i h
    unfold runSched
    cases hj : pkgs[j]? with
    | none =>
      refine ih st slots i ?_
      rcases h with ⟨hmem, hip, his⟩ | hgood
      · rcases List.mem_cons.mp hmem with hij | hmem2
        · subst hij
          rw [List.getElem?_eq_getElem hip] at hj
          cases hj
        · exact Or.inl ⟨hmem2, hip, his⟩
      · exact Or.inr hgood
    | some p =>
      have hpv : pkgs.getD j ("", "") = p := by
        rw [List.getD_eq_getElem?_getD, hj]
        rfl
      rcases h with ⟨hmem, hip, his⟩ | hgood
      · rcases List.mem_cons.mp hmem with hij | hmem2
        · subst hij
          refine ih _ _ i (Or.inr (slotNamed_set_self pkgs slots i _ his ?_ ?_))
          · rw [hpv]
            exact (get_package_info_components st now cmd p.1 p.2).1
          · rw [hpv]
            exact (get_package_info_components st now cmd p.1 p.2).2
        · refine ih _ _ i (Or.inl ⟨hmem2, hip, ?_⟩)
          rw [List.length_set]
          exact his
      · by_cases hij : j = i
        · subst hij
          refine ih _ _ j (Or.inr (slotNamed_set_self pkgs slots j _
            (slotNamed_lt pkgs slots j hgood) ?_ ?_))
          · rw [hpv]
            exact (get_package_info_components st now cmd p.1 p.2).1
          · rw [hpv]
            exact (get_package_info_components st now cmd p.1 p.2).2
        · exact ih _ _ i (Or.inr (slotNamed_set_ne pkgs slots i j _ hij hgood))

/-- C4: for every input list of installed packages and every completion
schedule of the concurrent lookups, the collected output has one slot per
input, and the i-th slot describes the i-th input package (same name and
installed version), i.e. output order equals input order. -/
theorem C4_order_preserved (now : Int) (cmd : String → Except Unit String)
    (pkgs : List (String × String)) (order : List Nat) (st : CacheState)
    (res : List (Option PkgRow))
    (hperm : order.Perm (List.range pkgs.length))
    (hres : res = enrichSched now cmd pkgs order st) :
    res.length = pkgs.length
    ∧ ∀ i, i < pkgs.length →
        ∃ row, res.getD i none = some row
          ∧ row.1 = (pkgs.getD i ("", "")).1
          ∧ row.2.1 = (pkgs.getD i ("", "")).2 := by
  subst hres
  constructor
  · rw [enrichSched, runSched_length]
    exact List.length_replicate _ _
  · intro i hi
    have hmem : i ∈ order := hperm.mem_iff.mpr (List.mem_range.mpr hi)
    exact runSched_slotNamed now cmd pkgs order st (List.replicate pkgs.length none) i
      (Or.inl ⟨hmem, hi, by rw [List.length_replicate]; exact hi⟩)

/-- Witness for C4: three packages processed under the reversed completion
schedule still come out in input order. -/
theorem C4_order_preserved_witness :
    (enrichSched 0 (fun _ => Except.error ()) [("a", "1"), ("b", "2"), ("c", "3")] [2, 1, 0]
        ⟨[], none⟩).length = [("a", "1"), ("b", "2"), ("c", "3")].length
    ∧ ∀ i, i < [("a", "1"), ("b", "2"), ("c", "3")].length →
        ∃ row, (enrichSched 0 (fun _ => Except.error ()) [("a", "1"), ("b", "2"), ("c", "3")]
            [2, 1, 0] ⟨[], none⟩).getD i none = some row
          ∧ row.1 = ([("a", "1"), ("b", "2"), ("c", "3")].getD i ("", "")).1
          ∧ row.2.1 = ([("a", "1"), ("b", "2"), ("c", "3")].getD i ("", "")).2 :=
  C4_order_preserved 0 (fun _ => Except.error ()) [("a", "1"), ("b", "2"), ("c", "3")] [2, 1, 0]
    ⟨[], none⟩ _ (by decide) rfl

/-- A lookup that the registry answers with a non-zero exit can never
create a cache entry: `get_package_info` preserves the absence of the
failing package's name in the cache, whatever package it processes. -/
theorem get_package_info_preserves_absent (st : CacheState) (now : Int)
    (cmd : String → Except Unit String) (a b n : String)
    (herr : cmd n = Except.error ()) (habs : cacheLookup st.cache n = none) :
    cacheLookup (get_package_info st now cmd a b).state.cache n = none := by
  unfold get_package_info
  cases hpg : PackageCache.get st.cache now a with
  | some e => exact habs
  | none =>
    cases hfetch : get_pypi_info (cmd a) with
    | none => exact habs
    | some info =>
      by_cases han : a = n
      · subst han
        rw [herr] at hfetch
        cases hfetch
      · show cacheLookup (cacheInsert st.cache a _) n = none
        rw [cacheLookup_insert_ne st.cache a n _ (fun h => han h.symm)]
        exact habs

/-- Absence of a failing package's cache entry is preserved along a whole
schedule. -/
theorem runSched_preserves_absent (now : Int) (cmd : String → Except Unit String)
    (pkgs : List (String × String)) (n : String) (herr : cmd n = Except.error ()) :
    ∀ (order : List Nat) (st : CacheState) (slots : List (Option PkgRow)),
      cacheLookup st.cache n = none →
      cacheLookup (runSched now cmd pkgs order st slots).2.cache n = none := by
  intro order
  induction order with
  | nil =>
    intro st slots h
    exact h
  | cons j rest ih =>
    intro st slots h
    unfold runSched
    cases pkgs[j]? with
    | none => exact ih st slots h
    | some p => exact ih _ _ (get_package_info_preserves_absent st now cmd p.1 p.2 n herr h)

/-- A slot whose index is never scheduled keeps its content. -/
theorem runSched_slot_untouched (now : Int) (cmd : String → Except Unit String)
    (pkgs : List (String × String)) :
    ∀ (order : List Nat) (st : CacheState) (slots : List (Option PkgRow)) (i : Nat),
      i ∉ order →
      (runSched now cmd pkgs order st slots).1.getD i none = slots.getD i none := by
  intro order
  induction order with
  | nil =>
    intro st slots i _
    rfl
  | cons j rest ih =>
    intro st slots i h
    have hji : j ≠ i := fun hh => h (hh ▸ List.mem_cons_self j rest)
    have hrest : i ∉ rest := fun hh => h (List.mem_cons_of_mem j hh)
    unfold runSched
    cases pkgs[j]? with
    | none => exact ih st slots i hrest
    | some p =>
      rw [ih _ _ i hrest, List.getD_eq_getElem?_getD, List.getElem?_set_ne hji,
        ← List.getD_eq_getElem?_getD]

/-- A package whose registry lookup exits non-zero, with no cache entry
for it, ends with its own slot filled by the degraded tuple
`(name, installed, none)`. -/
theorem runSched_failed_slot (now : Int) (cmd : String → Except Unit String)
    (pkgs : List (String × String)) (nameI instI : String)
    (herr : cmd nameI = Except.error ()) :
    ∀ (order : List Nat) (st : CacheState) (slots : List (Option PkgRow)) (i : Nat),
      order.Nodup → i ∈ order → pkgs[i]? = some (nameI, instI) → i < slots.length →
      cacheLookup st.cache nameI = none →
      (runSched now cmd pkgs order st slots).1.getD i none = some (nameI, instI, none) := by
  intro order
  induction order with
  | nil =>
    intro st slots i _ hmem
    cases hmem
  | cons j rest ih =>
    intro st slots i hnd hmem hp hlen habs
    have hnd2 := List.nodup_cons.mp hnd
    unfold runSched
    rcases List.mem_cons.mp hmem with hij | hmem2
    · subst hij
      rw [hp]
      dsimp only
      have hget : PackageCache.get st.cache now nameI = none :=
        PackageCache.get_of_lookup_none _ _ _ habs
      have hrow : get_package_info st now cmd nameI instI =
          { out := (nameI, instI, none), state := st, registry_called := true } := by
        unfold get_package_info
        rw [hget, herr]
        rfl
      rw [hrow]
      dsimp only
      rw [runSched_slot_untouched now cmd pkgs rest _ _ i hnd2.1]
      rw [List.getD_eq_getElem?_getD, List.getElem?_set_self hlen]
      rfl
    · cases hj : pkgs[j]? with
      | none => exact ih st slots i hnd2.2 hmem2 hp hlen habs
      | some p =>
        refine ih _ _ i hnd2.2 hmem2 hp ?_ ?_
        · rw [List.length_set]
          exact hlen
        · exact get_package_info_preserves_absent st now cmd p.1 p.2 nameI herr habs

/-- C5: a per-package lookup failure does not abort the batch: the output
still has one slot per input package, the failing package's slot carries
the degraded tuple with an absent latest version, and every other slot
still describes its own input package. -/
theorem C5_failed_lookup_degrades (now : Int) (cmd : String → Except Unit String)
    (pkgs : List (String × String)) (order : List Nat) (st : CacheState)
    (i : Nat) (nameI instI : String) (res : List (Option PkgRow))
    (hperm : order.Perm (List.range pkgs.length))
    (hp : pkgs[i]? = some (nameI, instI))
    (herr : cmd nameI = Except.error ())
    (habs : cacheLookup st.cache nameI = none)
    (hres : res = enrichSched now cmd pkgs order st) :
    res.length = pkgs.length
    ∧ res.getD i none = some (nameI, instI, none)
    ∧ ∀ j, j < pkgs.length →
        ∃ row, res.getD j none = some row ∧ row.1 = (pkgs.getD j ("", "")).1 := by
  subst hres
  have hi : i < pkgs.length := (List.getElem?_eq_some.mp hp).1
  have hnd : order.Nodup := hperm.nodup_iff.mpr (List.nodup_range _)
  have hmem : i ∈ order := hperm.mem_iff.mpr (List.mem_range.mpr hi)
  refine ⟨?_, ?_, ?_⟩
  · rw [enrichSched, runSched_length]
    exact List.length_replicate _ _
  · exact runSched_failed_slot now cmd pkgs nameI instI herr order st
      (List.replicate pkgs.length none) i hnd hmem hp
      (by rw [List.length_replicate]; exact hi) habs
  · intro j hj
    obtain ⟨row, hrow, h1, -⟩ :=
      runSched_slotNamed now cmd pkgs order st (List.replicate pkgs.length none) j
        (Or.inl ⟨hperm.mem_iff.mpr (List.mem_range.mpr hj), hj,
          by rw [List.length_replicate]; exact hj⟩)
    exact ⟨row, hrow, h1⟩

/-- Witness for C5: both packages looked up with a failing registry
command; the failing package "b" keeps its slot with an absent latest
version and nothing is dropped. -/
theorem C5_failed_lookup_degrades_witness :
    (enrichSched 0 (fun _ => Except.error ()) [("a", "1"), ("b", "2")] [1, 0]
        ⟨[], none⟩).length = [("a", "1"), ("b", "2")].length
    ∧ (enrichSched 0 (fun _ => Except.error ()) [("a", "1"), ("b", "2")] [1, 0]
        ⟨[], none⟩).getD 1 none = some ("b", "2", none)
    ∧ ∀ j, j < [("a", "1"), ("b", "2")].length →
        ∃ row, (enrichSched 0 (fun _ => Except.error ()) [("a", "1"), ("b", "2")] [1, 0]
            ⟨[], none⟩).getD j none = some row
          ∧ row.1 = ([("a", "1"), ("b", "2")].getD j ("", "")).1 :=
  C5_failed_lookup_degrades 0 (fun _ => Except.error ()) [("a", "1"), ("b", "2")] [1, 0]
    ⟨[], none⟩ 1 "b" "2" _ (by decide) rfl rfl rfl rfl

/-- Python `max()` over a sequence of naturals: raises `ValueError` on an
empty sequence, modelled as `none`. -/
def pyMax : List Nat → Option Nat
  | [] => none
  | x :: xs => some (xs.foldl max x)

/-- `str.ljust`: pad on the right with spaces to the given width. -/
def pyLjust (s : String) (w : Nat) : String :=
  s ++ String.mk (List.replicate (w - s.length) ' ')

/-- `str.rjust`: pad on the left with spaces to the given width. -/
def pyRjust (s : String) (w : Nat) : String :=
  String.mk (List.replicate (w - s.length) ' ') ++ s

/-- Width the Python code charges for the latest-version column of one
row: `len(str(latest_version) or '')`.  When the latest version is `None`,
`str(None)` is the truthy string `"None"`, so the charged width is 4. -/
def pyLatestWidth (latest : Option String) : Nat :=
  match latest with
  | none => "None".length
  | some s => s.length

/-- One line of the menu as built by `display_packages`: aligned name and
installed version, plus an arrow to the latest version when a latest
version is known, non-empty, and differs from the installed one. -/
def format_line (max_name max_ver : Nat) (name installed : String) (latest : Option String) :
    String :=
  match latest with
  | some lv =>
    if lv ≠ "" ∧ lv ≠ installed then
      pyLjust name max_name ++ " " ++ pyRjust installed max_ver ++ " → " ++ pyRjust lv max_ver
    else
      pyLjust name max_name ++ " " ++ pyRjust installed max_ver
  | none => pyLjust name max_name ++ " " ++ pyRjust installed max_ver

/-- The formatting tail of `PackageManager.display_packages` (lines
106-124): compute the two column widths with Python `max()` over all
rows, then format every row.  `none` models the `ValueError` the code
raises when a width generator is empty. -/
def display_format (package_info : List PkgRow) : Option (List String) :=
  match pyMax (package_info.map fun t => t.1.length) with
  | none => none
  | some max_name =>
    match pyMax (package_info.map fun t => max t.2.1.length (pyLatestWidth t.2.2)) with
    | none => none
    | some max_ver =>
      some (package_info.map fun t => format_line max_name max_ver t.1 t.2.1 t.2.2)

/-- `PackageManager.display_packages`: run the concurrent enrichment under
completion schedule `order`, then format the collected rows (an unfilled
slot renders from the default row, which cannot occur for a schedule
covering all inputs); the second component is the cache state left
behind. -/
def display_packages (st : CacheState) (now : Int) (cmd : String → Except Unit String)
    (pkgs : List (String × String)) (order : List Nat) :
    Option (List String) × CacheState :=
  (display_format ((runSched now cmd pkgs order st (List.replicate pkgs.length none)).1.map
      fun s => s.getD ("", "", none)),
   (runSched now cmd pkgs order st (List.replicate pkgs.length none)).2)

/-- Formatting any non-empty row list is well-defined. -/
theorem display_format_isSome (package_info : List PkgRow) (h : package_info ≠ []) :
    (display_format package_info).isSome := by
  cases package_info with
  | nil => exact absurd rfl h
  | cons t rest => rfl

/-- C10: the aggregation-and-formatting step is not total on the empty
input: for an empty package list the column-width `max()` is taken over an
empty sequence and the code raises (modelled as `none`), while for every
non-empty input the column-width computations (and hence the menu lines)
are well-defined. -/
theorem C10_empty_input_not_total (st : CacheState) (now : Int)
    (cmd : String → Except Unit String) (order : List Nat) :
    (display_packages st now cmd [] order).1 = none
    ∧ ∀ pkgs : List (String × String), pkgs ≠ [] →
        ((display_packages st now cmd pkgs order).1).isSome := by
  constructor
  · have h0 : (runSched now cmd [] order st (List.replicate 0 none)).1 = [] :=
      List.length_eq_zero.mp (runSched_length now cmd [] order st (List.replicate 0 none))
    show (display_format ((runSched now cmd [] order st (List.replicate 0 none)).1.map
      fun s => s.getD ("", "", none))) = none
    rw [h0]
    rfl
  · intro pkgs hne
    refine display_format_isSome _ ?_
    intro hmap
    have hlen := runSched_length now cmd pkgs order st (List.replicate pkgs.length none)
    rw [List.length_replicate] at hlen
    rw [List.map_eq_nil_iff.mp hmap] at hlen
    exact hne (List.length_eq_zero.mp hlen.symm)

/-- Witness for C10 at a concrete non-empty input. -/
theorem C10_empty_input_not_total_witness :
    ((display_packages ⟨[], none⟩ 0 (fun _ => Except.error ()) [("a", "1")] [0]).1).isSome :=
  (C10_empty_input_not_total ⟨[], none⟩ 0 (fun _ => Except.error ()) [0]).2 [("a", "1")]
    (by decide)

/-- A user choice in the per-package options menu, bundled with the
outcome of the triggered installer action (`true` models a zero exit
status of the external command).  `dismiss` models `terminal_menu.show()`
returning `None`. -/
inductive OptChoice
  | upgrade (ok : Bool)
  | downgrade (ok : Bool)
  | uninstall (ok : Bool)
  | back
  | dismiss
deriving DecidableEq

/-- `package_options`: loop over the options menu; `Back` or a dismissed
menu returns `False`; an action that reports success returns `True`; a
failed action keeps the user in the options menu, consuming the next
scripted choice; an exhausted script is treated like a dismissal. -/
def package_options : List OptChoice → Bool
  | [] => false
  | OptChoice.back :: _ => false
  | OptChoice.dismiss :: _ => false
  | OptChoice.upgrade ok :: rest => if ok then true else package_options rest
  | OptChoice.downgrade ok :: rest => if ok then true else package_options rest
  | OptChoice.uninstall ok :: rest => if ok then true else package_options rest

/-- A scripted user choice at the main menu: quit, dismiss the menu, or
pick a package and then interact with its options menu. -/
inductive MainChoice
  | quit
  | dismiss
  | pick (opts : List OptChoice)
deriving DecidableEq

/-- Observable event of the main loop: one `refresh` per loop iteration
top, covering `clear_screen()`, `get_installed_packages()` and
`display_packages(...)` (re-enumeration plus re-aggregation). -/
inductive Ev
  | refresh
deriving DecidableEq

/-- `main`: each iteration of the `while True` loop first re-enumerates
the installed packages and re-runs the aggregation (one `refresh` event),
then shows the main menu.  `Quit` or a dismissed menu breaks the loop;
picking a package runs `package_options`, after which control reaches the
top of the loop both when the returned flag is true (the `continue`
statement) and when it is false (falling off the end of the loop body). -/
def mainTrace : List MainChoice → List Ev
  | [] => [Ev.refresh]
  | c :: rest =>
    Ev.refresh ::
      match c with
      | MainChoice.quit => []
      | MainChoice.dismiss => []
      | MainChoice.pick opts =>
        if package_options opts then mainTrace rest else mainTrace rest

/-- C9 counterexample: selecting a package and then Back produces a trace
with a second refresh — the main loop re-enumerates and re-aggregates
after Back exactly as it does after a successful action, so Back does not
return to the main menu "without refresh". -/
theorem C9_counterexample :
    mainTrace [MainChoice.pick [OptChoice.back], MainChoice.quit] = [Ev.refresh, Ev.refresh]
    ∧ package_options [OptChoice.back] = false
    ∧ mainTrace [MainChoice.pick [OptChoice.upgrade true], MainChoice.quit] =
        [Ev.refresh, Ev.refresh] := by
  decide

/-- C9 (amended): Back or a dismissal makes `package_options` report
`false` and a successful action makes it report `true`, but the main loop
performs a full refresh (re-enumeration and re-aggregation) at the top of
every iteration regardless of that flag: after leaving the package action
menu the next event is always a refresh. -/
theorem C9_back_still_refreshes :
    (∀ s : List OptChoice,
      package_options (OptChoice.back :: s) = false
      ∧ package_options (OptChoice.dismiss :: s) = false
      ∧ package_options (OptChoice.upgrade true :: s) = true)
    ∧ ∀ (opts : List OptChoice) (rest : List MainChoice),
        mainTrace (MainChoice.pick opts :: rest) = Ev.refresh :: mainTrace rest := by
  constructor
  · intro s
    exact ⟨rfl, rfl, rfl⟩
  · intro opts rest
    show Ev.refresh :: (if package_options opts then mainTrace rest else mainTrace rest) =
      Ev.refresh :: mainTrace rest
    rw [ite_self]
